import Mathlib

/-!
# Verification of the ekho session / ARQ core

Shallow embedding of the `ekho` repository (ICMP-tunnelled, encrypted,
KCP-style reliable transport).  The session layer and dispatcher are
embedded from `src/session.rs`; the connection-management iteration from
`src/kcp.rs`.  The pure ARQ control block that `src/session.rs` calls
(`crate::kcp::ControlBlock`, `conv_from_raw`, `first_push_packet`) is not
part of the provided sources, so those operations are modelled from the
specification (marked `Modelled from the spec:` below).

Bytes are modelled as natural numbers, byte strings as `List Nat`,
endpoints (IPv4 peers) as opaque naturals with structural equality.
-/

/-- KCP command byte for a data (PUSH) segment (spec: `cmd ∈ {PUSH=81, ...}`). -/
def CMD_PUSH : Nat := 81

/-- KCP command byte for an acknowledgement segment. -/
def CMD_ACK : Nat := 82

/-- KCP command byte for a window probe. -/
def CMD_WASK : Nat := 83

/-- KCP command byte for a window advertisement. -/
def CMD_WINS : Nat := 84

/-- An ARQ segment.  Modelled from the spec: segment header
`conv:u32 | cmd:u8 | frg:u8 | wnd:u16 | ts:u32 | sn:u32 | una:u32 | len:u32`
followed by `len` payload bytes (§3 "Segment header", §6 wire frame). -/
structure Segment where
  conv : Nat
  cmd : Nat
  frg : Nat
  wnd : Nat
  ts : Nat
  sn : Nat
  una : Nat
  payload : List Nat
deriving DecidableEq, Repr

/-- The receive-side ARQ control block.  Modelled from the spec (§3, §4.C):
`rcv_nxt` is the next expected sequence number, `rcv_buf` holds received
segments not yet deliverable in order (kept sorted by `sn`), `rcv_queue`
holds in-order segments deliverable to the user, `rcv_wnd` is the local
receive window, `snd_una` the lowest unacknowledged outbound sequence
number (updated from the `una` field of inbound segments).  The outbound
retransmission machinery (`snd_queue`/`snd_buf`, RTT timers) is exercised
through the channel abstraction in the delivery theorem and is not part of
the state needed by any claim. -/
structure ControlBlock where
  conv : Nat
  rcv_nxt : Nat
  rcv_buf : List Segment
  rcv_queue : List Segment
  rcv_wnd : Nat
  snd_una : Nat
deriving DecidableEq, Repr

/-- A freshly constructed control block for conversation `conv` with receive
window `wnd` (spec §4.E: "constructs the control block with configured
parameters"). -/
def ControlBlock.fresh (conv wnd : Nat) : ControlBlock :=
  ⟨conv, 0, [], [], wnd, 0⟩

/-- Fragmentation worker, structurally recursive on a fuel bound (one unit
of fuel per byte suffices, since each step removes `mss ≥ 1` bytes). -/
def fragmentMsgFuel (mss : Nat) : Nat → List Nat → List (List Nat)
  | 0, msg => [msg]
  | fuel + 1, msg =>
    if msg.length ≤ mss ∨ mss = 0 then [msg]
    else msg.take mss :: fragmentMsgFuel mss fuel (msg.drop mss)

/-- Modelled from the spec: `send(payload)` "splits payload into ≤ mss
fragments" (§4.C).  An empty payload produces a single zero-length fragment
(the FIN).  `mss = 0` degenerates to a single fragment. -/
def fragmentMsg (mss : Nat) (msg : List Nat) : List (List Nat) :=
  fragmentMsgFuel mss msg.length msg

/-- The segments of one user message: fragments carry descending `frg`
(last fragment has `frg = 0`) and consecutive sequence numbers starting at
`sn0` (spec §4.C send / §3).  Sender-metadata fields (`wnd`, `ts`, `una`)
are irrelevant to delivery and set to zero. -/
def msgSegments (conv : Nat) : Nat → List (List Nat) → List Segment
  | _, [] => []
  | sn0, p :: rest =>
    ⟨conv, CMD_PUSH, rest.length, 0, 0, sn0, 0, p⟩ :: msgSegments conv (sn0 + 1) rest

/-- The full sequence of PUSH segments generated by submitting the messages
`msgs` in order on a fresh session: consecutive sequence numbers starting
at `sn0`, each message fragmented by `fragmentMsg` (spec §4.C send/flush). -/
def sentSegments (conv mss : Nat) : Nat → List (List Nat) → List Segment
  | _, [] => []
  | sn0, m :: ms =>
    let frags := fragmentMsg mss m
    msgSegments conv sn0 frags ++ sentSegments conv mss (sn0 + frags.length) ms

/-- Modelled from the spec: insertion of a received segment into `rcv_buf`,
which is "ordered-by-`sn`" (§3); a duplicate `sn` is discarded (§4.B
rationale: "duplicate sn are discarded"). -/
def insertBuf (seg : Segment) : List Segment → List Segment
  | [] => [seg]
  | s :: rest =>
    if seg.sn < s.sn then seg :: s :: rest
    else if seg.sn = s.sn then s :: rest
    else s :: insertBuf seg rest

/-- Modelled from the spec: moving the maximal run of consecutive segments
(starting at `rcv_nxt`) from the ordered `rcv_buf` into `rcv_queue`
(§3: `rcv_queue` is the "ordered sequence of in-order segments deliverable
to the user").  Returns the new `rcv_nxt`, the moved segments and the
remaining buffer. -/
def drainBuf : Nat → List Segment → Nat × List Segment × List Segment
  | nxt, [] => (nxt, [], [])
  | nxt, s :: rest =>
    if s.sn = nxt then
      let r := drainBuf (nxt + 1) rest
      (r.1, s :: r.2.1, r.2.2)
    else (nxt, [], s :: rest)

/-- Modelled from the spec: acceptance of one inbound PUSH segment
(§4.C input): segments below `rcv_nxt` (already delivered) or at or beyond
`rcv_nxt + rcv_wnd` (outside the receive window) are dropped; otherwise the
segment is inserted into the ordered `rcv_buf` (duplicates discarded) and
any newly in-order run is moved to `rcv_queue`. -/
def pushAccept (cb : ControlBlock) (seg : Segment) : ControlBlock :=
  if seg.sn < cb.rcv_nxt ∨ cb.rcv_nxt + cb.rcv_wnd ≤ seg.sn then cb
  else
    let r := drainBuf cb.rcv_nxt (insertBuf seg cb.rcv_buf)
    { cb with rcv_nxt := r.1, rcv_queue := cb.rcv_queue ++ r.2.1, rcv_buf := r.2.2 }

/-- Modelled from the spec: the effect of one parsed inbound segment on the
control block (§4.C input): `snd_una` is updated from the segment's `una`
field; a PUSH segment additionally goes through window/dedup acceptance;
ACK/WASK/WINS segments have no effect on the receive path. -/
def inputSegment (cb : ControlBlock) (seg : Segment) : ControlBlock :=
  let cb1 := { cb with snd_una := max cb.snd_una seg.una }
  if seg.cmd = CMD_PUSH then pushAccept cb1 seg else cb1

/-- Processing a whole arrival schedule (a list of delivered segments, in
delivery order) through the control block. -/
def runRecv (cb : ControlBlock) (arrivals : List Segment) : ControlBlock :=
  arrivals.foldl inputSegment cb

/-- Modelled from the spec: reassembly of the head message of `rcv_queue`
"by `frg` countdown (last fragment has `frg=0`)" (§4.C recv).  `takeFrags k
q` succeeds iff `q` starts with fragments carrying `frg = k, k-1, …, 0`,
returning their payloads and the rest of the queue. -/
def takeFrags : Nat → List Segment → Option (List (List Nat) × List Segment)
  | _, [] => none
  | k, s :: rest =>
    if s.frg = k then
      if k = 0 then some ([s.payload], rest)
      else
        match takeFrags (k - 1) rest with
        | none => none
        | some (ps, r) => some (s.payload :: ps, r)
    else none

/-- Modelled from the spec: `recv() → payload | NotAvailable` (§4.C): pops
the next in-order fragmented message from `rcv_queue`; `none` iff the
queue is empty or the head message is incomplete. -/
def recvOnce (cb : ControlBlock) : Option (List Nat × ControlBlock) :=
  match cb.rcv_queue with
  | [] => none
  | s :: _ =>
    match takeFrags s.frg cb.rcv_queue with
    | none => none
    | some (ps, rest) => some (ps.flatten, { cb with rcv_queue := rest })

/-- Repeated `recv` with explicit fuel (one unit per queued segment is
enough, since every successful `recv` consumes at least one segment). -/
def recvAllFuel : Nat → ControlBlock → List (List Nat)
  | 0, _ => []
  | fuel + 1, cb =>
    match recvOnce cb with
    | none => []
    | some (msg, cb2) => msg :: recvAllFuel fuel cb2

/-- The sequence of payloads obtained by calling `recv` until it reports
`NotAvailable` (the loop in `Session::recv`, `src/session.rs`). -/
def recvAll (cb : ControlBlock) : List (List Nat) :=
  recvAllFuel cb.rcv_queue.length cb

/-- A delivery schedule in which each packet is eventually delivered, in
finite form: at every point of the schedule at which some sent segment is
still undelivered, a copy of the next expected segment (`sn = rcv_nxt`)
arrives later in the schedule.  This is what the closed loop guarantees
under any loss rate below 100%: the receiver acknowledges a segment only
once it accepts it (the next expected segment is always inside the receive
window), the sender retransmits every unacknowledged segment until it is
acknowledged (spec §4.C flush, §8 properties 1–3), so while `sn = rcv_nxt`
is undelivered, further copies of it keep arriving.  Reordering,
duplication and loss of individual copies are otherwise arbitrary.  The
predicate is decidable, so concrete schedules can be checked by
evaluation. -/
def fairSchedule (sent : List Segment) (cb0 : ControlBlock)
    (arrivals : List Segment) : Prop :=
  ∀ i : Nat, i ≤ arrivals.length →
    (runRecv cb0 (arrivals.take i)).rcv_nxt < sent.length →
    sent.getD (runRecv cb0 (arrivals.take i)).rcv_nxt ⟨0, 0, 0, 0, 0, 0, 0, []⟩ ∈
      arrivals.drop i

instance (sent : List Segment) (cb0 : ControlBlock) (arrivals : List Segment) :
    Decidable (fairSchedule sent cb0 arrivals) :=
  decidable_of_iff
    (∀ i : Nat, i ≤ arrivals.length →
      (runRecv cb0 (arrivals.take i)).rcv_nxt < sent.length →
      sent.getD (runRecv cb0 (arrivals.take i)).rcv_nxt ⟨0, 0, 0, 0, 0, 0, 0, []⟩ ∈
        arrivals.drop i)
    Iff.rfl

/-! ## Wire format and frame parsing

`conv_from_raw` and `first_push_packet` are called by `dispatch_loop` in
`src/session.rs` but their definitions are not among the provided sources;
they are modelled from the spec (§3 conversation id, §4.F step 6, §6 wire
frame, all multi-byte integers little-endian). -/

/-- A 16-bit little-endian integer from two bytes. -/
def le16 (b0 b1 : Nat) : Nat := b0 + 256 * b1

/-- A 32-bit little-endian integer from four bytes. -/
def le32 (b0 b1 b2 b3 : Nat) : Nat := b0 + 256 * (b1 + 256 * (b2 + 256 * b3))

/-- Modelled from the spec: "Extract `conv` from the first 4 bytes of the
decrypted frame" (§4.F step 4; §3: "the first four bytes of every ARQ frame
carry it").  Missing bytes read as zero. -/
def conv_from_raw (raw : List Nat) : Nat :=
  le32 (raw.getD 0 0) (raw.getD 1 0) (raw.getD 2 0) (raw.getD 3 0)

/-- Parse one segment from the front of a decrypted frame: the 24-byte
header followed by `len` payload bytes (spec §3 "Segment header", §6).
Fails on a short header or an impossible length (§4.C input: "Fails if …
a length is impossible"). -/
def parseSegment (raw : List Nat) : Option (Segment × List Nat) :=
  if raw.length < 24 then none
  else
    let len := le32 (raw.getD 20 0) (raw.getD 21 0) (raw.getD 22 0) (raw.getD 23 0)
    let body := raw.drop 24
    if body.length < len then none
    else
      some (⟨conv_from_raw raw, raw.getD 4 0, raw.getD 5 0,
             le16 (raw.getD 6 0) (raw.getD 7 0),
             le32 (raw.getD 8 0) (raw.getD 9 0) (raw.getD 10 0) (raw.getD 11 0),
             le32 (raw.getD 12 0) (raw.getD 13 0) (raw.getD 14 0) (raw.getD 15 0),
             le32 (raw.getD 16 0) (raw.getD 17 0) (raw.getD 18 0) (raw.getD 19 0),
             body.take len⟩, body.drop len)

/-- Parser worker over the whole frame ("multiple segments may share one
packet", §4.C input), structurally recursive on a fuel bound (one unit per
byte suffices since a segment consumes at least 24 bytes). -/
def parseSegmentsFuel : Nat → List Nat → Option (List Segment)
  | _, [] => some []
  | 0, _ :: _ => none
  | fuel + 1, raw =>
    match parseSegment raw with
    | none => none
    | some (seg, rest) =>
      match parseSegmentsFuel fuel rest with
      | none => none
      | some segs => some (seg :: segs)

/-- Parse all concatenated segments of a decrypted frame. -/
def parseSegments (raw : List Nat) : Option (List Segment) :=
  parseSegmentsFuel raw.length raw

/-- Modelled from the spec: the "first push" predicate — "the frame's first
segment is a PUSH with `sn == 0` (… an unsolicited stream opener)"
(§4.F step 6). -/
def first_push_packet (raw : List Nat) : Bool :=
  match parseSegment raw with
  | none => false
  | some (seg, _) => decide (seg.cmd = CMD_PUSH) && decide (seg.sn = 0)

/-- Modelled from the spec: `input(raw_frame)` (§4.C): parses the
concatenated segments of the frame and folds their effects over the control
block.  "Fails if a segment's `conv` mismatches or a length is impossible";
a command byte outside `{PUSH, ACK, WASK, WINS}` is likewise malformed.
Failure is transactional (the block is returned unchanged to the caller as
an error, `src/session.rs` then `unwrap`s it). -/
def kcpInput (cb : ControlBlock) (raw : List Nat) : Option ControlBlock :=
  match parseSegments raw with
  | none => none
  | some segs =>
    if segs.all fun s =>
        decide (s.conv = cb.conv) &&
        (decide (s.cmd = CMD_PUSH) || decide (s.cmd = CMD_ACK) ||
         decide (s.cmd = CMD_WASK) || decide (s.cmd = CMD_WINS))
    then some (segs.foldl inputSegment cb)
    else none

/-! ## The session registry and the dispatcher (`src/session.rs`) -/

/-- A peer endpoint (IPv4 address, `crate::icmp::Endpoint`): opaque, with
structural equality and hashing (spec §3). -/
abbrev Endpoint := Nat

/-- A registry key: the `(peer, conv)` pair identifying one session. -/
abbrev SessionKey := Endpoint × Nat

/-- The global registry `CONTROLS : DashMap<(Endpoint, u32), Weak<Control>>`
(`src/session.rs`).  A weak reference is modelled as `Option ControlBlock`:
`some cb` is an upgradable weak to a live control block in state `cb`,
`none` a dead weak (the session and its updater are gone but the key was
never removed). -/
abbrev Registry := List (SessionKey × Option ControlBlock)

/-- `CONTROLS.get(key)` — the stored weak reference, if the key is present. -/
def lookupReg : Registry → SessionKey → Option (Option ControlBlock)
  | [], _ => none
  | (k, v) :: rest, key => if k = key then some v else lookupReg rest key

/-- `CONTROLS.contains_key(key)` (used by the assert in `Session::new` and
by the collision loop in `Session::connect`). -/
def containsKey (reg : Registry) (key : SessionKey) : Bool :=
  (lookupReg reg key).isSome

/-- `CONTROLS.get(key).and_then(|weak| weak.upgrade())` — the dispatcher's
lookup (`src/session.rs`, dispatch_loop): `none` when the key is absent or
its weak reference is dead. -/
def upgradeReg (reg : Registry) (key : SessionKey) : Option ControlBlock :=
  match lookupReg reg key with
  | none => none
  | some w => w

/-- Replacing the control block stored under `key` (the effect of a locked
mutation of the control block on the state the registry's weak points to). -/
def updateReg (reg : Registry) (key : SessionKey) (cb : ControlBlock) : Registry :=
  reg.map fun e => if e.1 = key then (key, some cb) else e

/-- `CONTROLS.remove(key)` (the graceful branch of `Session::close`). -/
def removeReg (reg : Registry) (key : SessionKey) : Registry :=
  reg.filter fun e => decide (e.1 ≠ key)

/-- The KCP tuning options from `src/config.rs` (`struct KcpConfig`). -/
structure KcpConfig where
  mtu : Nat
  nodelay : Bool
  interval : Nat
  resend : Nat
  congestion_control : Bool
  rto : Nat
  rto_min : Nat
  send_window_size : Nat
  recv_window_size : Nat
deriving DecidableEq, Repr

/-- The default window sizes of `src/config.rs` with an mtu and timing
typical of the spec's ranges; used to instantiate witnesses. -/
def defaultKcpConfig : KcpConfig :=
  ⟨1400, false, 10, 2, false, 200, 100, 2048, 2048⟩

/-- The result of one iteration of `dispatch_loop` (`src/session.rs`):
the registry afterwards, the packets sent back on the carrier (the
camouflage bounce), the key of a session published to the `INCOMING`
channel (if any), and whether the iteration panicked (`unwrap` on a failed
`input`, or the `assert!` in `Session::new`), which kills the dispatch
task. -/
structure StepResult where
  registry : Registry
  sent : List (Endpoint × List Nat)
  created : Option SessionKey
  panicked : Bool
deriving DecidableEq, Repr

/-- One iteration of `dispatch_loop` (`src/session.rs`) on an inbound
packet `(src, raw)`.  The AEAD cipher is an external collaborator (spec
§4.B) and is passed as the pure function `dec`; on authentication failure
the buffer is untouched and the packet is bounced verbatim.  On success:
extract `conv`, look up `(src, conv)` and upgrade the weak; if that fails
and the frame is a first push, run `Session::new` (which asserts the key is
absent — panicking otherwise — and inserts a fresh control block) and
publish the session; finally feed the frame to the control block with
`kcp.input(&raw).unwrap()`, panicking if `input` fails. -/
def dispatchStep (dec : List Nat → Option (List Nat)) (cfg : KcpConfig)
    (reg : Registry) (src : Endpoint) (raw : List Nat) : StepResult :=
  match dec raw with
  | none => ⟨reg, [(src, raw)], none, false⟩
  | some plain =>
    let conv := conv_from_raw plain
    let key : SessionKey := (src, conv)
    match upgradeReg reg key with
    | some cb =>
      match kcpInput cb plain with
      | none => ⟨reg, [], none, true⟩
      | some cb2 => ⟨updateReg reg key cb2, [], none, false⟩
    | none =>
      if first_push_packet plain then
        if containsKey reg key then ⟨reg, [], none, true⟩
        else
          let fresh := ControlBlock.fresh conv cfg.recv_window_size
          let reg2 := (key, some fresh) :: reg
          match kcpInput fresh plain with
          | none => ⟨reg2, [], some key, true⟩
          | some cb2 => ⟨updateReg reg2 key cb2, [], some key, false⟩
      else ⟨reg, [], none, false⟩

/-- `Session::connect(peer)` (`src/session.rs`): draw random `conv` values,
retrying while `CONTROLS.contains_key((peer, conv))`, then build the
session via `Session::new`, whose registry effect is inserting the key with
a live control block.  The random number generator is modelled as the
stream `cands` of candidate values; an exhausted stream (`none`) stands for
the loop still running. -/
def sessionConnect (cfg : KcpConfig) (reg : Registry) (peer : Endpoint) :
    List Nat → Option (Nat × Registry)
  | [] => none
  | c :: rest =>
    if containsKey reg (peer, c) then sessionConnect cfg reg peer rest
    else some (c, ((peer, c), some (ControlBlock.fresh c cfg.recv_window_size)) :: reg)

/-- The registry effect of `Session::close` (`src/session.rs`): a
`select!` race between a 60-second sleep and the graceful sequence (send
FIN, drain until `peer_closing`, join the updater, then
`CONTROLS.remove(&(peer, conv))`).  `timedOut = true` selects the branch in
which the sleep wins: its handler is empty, so nothing at all is done;
only the graceful branch removes the key. -/
def closeSession (timedOut : Bool) (reg : Registry) (key : SessionKey) : Registry :=
  if timedOut then reg else removeReg reg key

/-- The registry effect of dropping a `Session` without calling `close`:
`Session` (`src/session.rs`) has no `Drop` implementation, so dropping it
only drops its fields (the `JoinHandle` detaches the updater, the `Arc`
drops one strong count, the atomics are freed) — none of which touches
`CONTROLS`.  The registry is unchanged. -/
def dropSessionWithoutClose (reg : Registry) (_key : SessionKey) : Registry :=
  reg

/-! ## The FFI connection-management iteration (`src/kcp.rs`) -/

/-- Modelled from the spec: `ikcp_peeksize` — the size of the next complete
in-order message, negative when none is available ("Returns NotAvailable
iff the head message is incomplete", §4.C recv; `peek_size` is a predicate
on the internal queues). -/
def peekSize (cb : ControlBlock) : Int :=
  match recvOnce cb with
  | none => -1
  | some (msg, _) => (msg.length : Int)

/-- Modelled from the spec: `ikcp_recv` called with a caller buffer of
`buflen` bytes.  Returns the number of bytes written (the reassembled head
message) together with those bytes and the updated block; when no complete
message is available, or the message does not fit in the caller's buffer,
it returns a negative code, writes nothing and dequeues nothing.  Whatever
the missing C code does, it can never place more than `buflen` bytes in the
caller's buffer. -/
def ikcpRecvInto (cb : ControlBlock) (buflen : Nat) : Int × List Nat × ControlBlock :=
  match recvOnce cb with
  | none => (-1, [], cb)
  | some (msg, cb2) =>
    if buflen < msg.length then (-3, [], cb)
    else ((msg.length : Int), msg, cb2)

/-- A `BytesMut`: `len` initialized bytes (with their contents) out of
`cap` allocated ones.  `BytesMut::with_capacity(n)` allocates `n` bytes but
initializes none; `as_mut` / `Bytes::from` expose exactly the initialized
`data`, never the spare capacity. -/
structure BytesMutModel where
  cap : Nat
  data : List Nat
deriving DecidableEq, Repr

/-- `BytesMut::with_capacity(n)`: capacity `n`, length 0. -/
def bytesMutWithCapacity (n : Nat) : BytesMutModel := ⟨n, []⟩

/-- `KcpConnection::try_recv` (`src/kcp.rs`): read `peek_size`; if negative
return `None`; otherwise build `ret = BytesMut::with_capacity(size)`, call
`self.control.lock().recv(ret.as_mut())` — note `ret.as_mut()` is the
*initialized* slice of `ret`, which has length 0 — and return
`Some(Bytes::from(ret))`, i.e. the initialized bytes of `ret` after the
call.  Returns the value and the control block afterwards. -/
def try_recv (cb : ControlBlock) : Option (List Nat) × ControlBlock :=
  let size := peekSize cb
  if size < 0 then (none, cb)
  else
    let ret := bytesMutWithCapacity size.toNat
    let r := ikcpRecvInto cb ret.data.length
    (some ({ ret with data := r.2.1 }).data, r.2.2)

/-- A concrete instantiation of the AEAD decryption used for closed
counterexamples and witnesses: every packet authenticates and decrypts to
itself.  (The dispatcher is parametric in the cipher, which is an external
collaborator; spec §4.B.) -/
def decId : List Nat → Option (List Nat) := fun r => some r

/-- A concrete 24-byte first-push frame for conversation 5: a PUSH segment
with `sn = 0` and an empty payload. -/
def rawFirstPush5 : List Nat :=
  [5, 0, 0, 0, 81, 0, 0, 0, 0, 0, 0, 0, 0, 0, 0, 0, 0, 0, 0, 0, 0, 0, 0, 0]

/-- A concrete malformed frame for conversation 5: a PUSH header declaring
a 1-byte payload (`len = 1`) with no payload bytes following — an
"impossible length", so `input` fails on it. -/
def rawBadLen5 : List Nat :=
  [5, 0, 0, 0, 81, 0, 0, 0, 0, 0, 0, 0, 0, 0, 0, 0, 0, 0, 0, 0, 1, 0, 0, 0]

/-- A registry holding a single live session `(7, 5)` with a fresh control
block, used in concrete counterexamples. -/
def regLive75 : Registry := [((7, 5), some (ControlBlock.fresh 5 2048))]

/-- A registry holding a stale entry for `(7, 5)`: the key is present but
its weak reference is dead (the session was dropped without `close` and its
updater has exited). -/
def regStale75 : Registry := [((7, 5), none)]

/-- A control block whose receive queue holds one complete in-order
message, the five bytes `[1, 2, 3, 4, 5]` (a single fragment, `frg = 0`),
already moved past by `rcv_nxt`.  Failing input for claim C9. -/
def cbReadyMsg : ControlBlock :=
  ⟨1, 1, [], [⟨1, CMD_PUSH, 0, 0, 0, 0, 0, [1, 2, 3, 4, 5]⟩], 2048, 0⟩

/-- The inductive invariant of the receive path, for any list `sent` whose
`k`-th element carries sequence number `k`: the queue is exactly the prefix
of `sent` below `rcv_nxt`, and the buffer holds sent segments strictly
beyond `rcv_nxt`, sorted by sequence number without duplicates. -/
structure RecvInv (sent : List Segment) (w : Nat) (cb : ControlBlock) : Prop where
  nxt_le : cb.rcv_nxt ≤ sent.length
  wnd_eq : cb.rcv_wnd = w
  queue_eq : cb.rcv_queue = sent.take cb.rcv_nxt
  buf_mem : ∀ s ∈ cb.rcv_buf, s ∈ sent
  buf_gt : ∀ s ∈ cb.rcv_buf, cb.rcv_nxt < s.sn
  buf_sorted : cb.rcv_buf.Pairwise fun a b => a.sn < b.sn

/-! ## Structure of the sent segment sequence (claim C1) -/

theorem msgSegments_length (conv : Nat) (sn0 : Nat) (frags : List (List Nat)) :
    (msgSegments conv sn0 frags).length = frags.length := by
  induction frags generalizing sn0 with
  | nil => rfl
  | cons p rest ih => simp [msgSegments, ih]

theorem sentSegments_cons (conv mss sn0 : Nat) (m : List Nat) (ms : List (List Nat)) :
    sentSegments conv mss sn0 (m :: ms) =
      msgSegments conv sn0 (fragmentMsg mss m) ++
        sentSegments conv mss (sn0 + (fragmentMsg mss m).length) ms := rfl

theorem map_sn_msgSegments (conv : Nat) (sn0 : Nat) (frags : List (List Nat)) :
    (msgSegments conv sn0 frags).map Segment.sn = List.range' sn0 frags.length := by
  induction frags generalizing sn0 with
  | nil => rfl
  | cons p rest ih => simp [msgSegments, List.range', ih]

theorem map_sn_sentSegments (conv mss sn0 : Nat) (msgs : List (List Nat)) :
    (sentSegments conv mss sn0 msgs).map Segment.sn =
      List.range' sn0 (sentSegments conv mss sn0 msgs).length := by
  induction msgs generalizing sn0 with
  | nil => rfl
  | cons m ms ih =>
    rw [sentSegments_cons, List.map_append, map_sn_msgSegments, ih,
      List.length_append, msgSegments_length]
    simp [Nat.add_comm]

/-- In a list of segments whose sequence numbers form the range starting at
`sn0`, the `k`-th element carries sequence number `sn0 + k`. -/
theorem sn_get_of_map_range' (l : List Segment) (sn0 : Nat)
    (hl : l.map Segment.sn = List.range' sn0 l.length) :
    ∀ (k : Nat) (h : k < l.length), (l.get ⟨k, h⟩).sn = sn0 + k := by
  induction l generalizing sn0 with
  | nil => intro k h; exact absurd h (by simp)
  | cons s rest ih =>
    intro k h
    simp only [List.map_cons, List.length_cons, List.range'] at hl
    obtain ⟨hs, hrest⟩ := List.cons.inj hl
    cases k with
    | zero => simpa using hs
    | succ k =>
      have := ih (sn0 + 1) hrest k (by simpa using Nat.lt_of_succ_lt_succ h)
      simpa [Nat.add_assoc, Nat.add_comm 1 k] using this

theorem sn_get_sentSegments (conv mss : Nat) (msgs : List (List Nat)) (k : Nat)
    (h : k < (sentSegments conv mss 0 msgs).length) :
    ((sentSegments conv mss 0 msgs).get ⟨k, h⟩).sn = k := by
  have := sn_get_of_map_range' (sentSegments conv mss 0 msgs) 0
    (map_sn_sentSegments conv mss 0 msgs) k h
  simpa using this

/-! ## Receive-buffer lemmas (claim C1) -/

theorem mem_insertBuf (seg x : Segment) (buf : List Segment)
    (h : x ∈ insertBuf seg buf) : x = seg ∨ x ∈ buf := by
  induction buf with
  | nil => simpa [insertBuf] using h
  | cons s rest ih =>
    simp only [insertBuf] at h
    by_cases h1 : seg.sn < s.sn
    · rw [if_pos h1] at h
      rcases List.mem_cons.mp h with h | h
      · exact Or.inl h
      · exact Or.inr h
    · rw [if_neg h1] at h
      by_cases h2 : seg.sn = s.sn
      · rw [if_pos h2] at h
        exact Or.inr h
      · rw [if_neg h2] at h
        rcases List.mem_cons.mp h with h | h
        · exact Or.inr (h ▸ List.mem_cons_self s rest)
        · rcases ih h with h | h
          · exact Or.inl h
          · exact Or.inr (List.mem_cons_of_mem s h)

theorem insertBuf_pairwise (seg : Segment) (buf : List Segment)
    (h : buf.Pairwise fun a b => a.sn < b.sn) :
    (insertBuf seg buf).Pairwise fun a b => a.sn < b.sn := by
  induction buf with
  | nil => simp [insertBuf]
  | cons s rest ih =>
    obtain ⟨hs, hrest⟩ := List.pairwise_cons.mp h
    simp only [insertBuf]
    by_cases h1 : seg.sn < s.sn
    · rw [if_pos h1]
      refine List.pairwise_cons.mpr ⟨?_, List.pairwise_cons.mpr ⟨hs, hrest⟩⟩
      intro b hb
      rcases List.mem_cons.mp hb with rfl | hb
      · exact h1
      · exact h1.trans (hs b hb)
    · rw [if_neg h1]
      by_cases h2 : seg.sn = s.sn
      · rw [if_pos h2]
        exact List.pairwise_cons.mpr ⟨hs, hrest⟩
      · rw [if_neg h2]
        refine List.pairwise_cons.mpr ⟨?_, ih hrest⟩
        intro b hb
        rcases mem_insertBuf seg b rest hb with rfl | hb
        · omega
        · exact hs b hb

theorem drainBuf_spec : ∀ (buf : List Segment) (nxt : Nat),
    (buf.Pairwise fun a b => a.sn < b.sn) → (∀ s ∈ buf, nxt ≤ s.sn) →
    ∀ n2 mv b2, drainBuf nxt buf = (n2, mv, b2) →
      mv ++ b2 = buf ∧ n2 = nxt + mv.length ∧
        (∀ (i : Nat) (h : i < mv.length), (mv.get ⟨i, h⟩).sn = nxt + i) ∧
        (∀ s ∈ b2, n2 < s.sn) := by
  intro buf
  induction buf with
  | nil =>
    intro nxt _ _ n2 mv b2 hd
    simp only [drainBuf] at hd
    injection hd with h1 h23
    injection h23 with h2 h3
    subst h1; subst h2; subst h3
    simp
  | cons s rest ih =>
    intro nxt hsort hlb n2 mv b2 hd
    obtain ⟨hs_head, hsort_rest⟩ := List.pairwise_cons.mp hsort
    simp only [drainBuf] at hd
    by_cases hsn : s.sn = nxt
    · rw [if_pos hsn] at hd
      rcases hdr : drainBuf (nxt + 1) rest with ⟨n1, mv1, b1⟩
      rw [hdr] at hd
      injection hd with h1 h23
      injection h23 with h2 h3
      subst h1; subst h2; subst h3
      have hlb1 : ∀ x ∈ rest, nxt + 1 ≤ x.sn := by
        intro x hx
        have := hs_head x hx
        omega
      obtain ⟨ha, hb, hc, hdd⟩ := ih (nxt + 1) hsort_rest hlb1 n1 mv1 b1 hdr
      refine ⟨by simp [ha], by simp [hb]; omega, ?_, hdd⟩
      intro i h
      cases i with
      | zero => simpa using hsn
      | succ i =>
        have := hc i (by simpa using Nat.lt_of_succ_lt_succ h)
        simp only [List.get_cons_succ]
        rw [this]
        omega
    · rw [if_neg hsn] at hd
      injection hd with h1 h23
      injection h23 with h2 h3
      subst h1; subst h2; subst h3
      refine ⟨rfl, by simp, by intro i h; exact absurd h (by simp), ?_⟩
      intro x hx
      rcases List.mem_cons.mp hx with rfl | hx
      · have := hlb x (List.mem_cons_self x rest)
        omega
      · have h1 := hlb s (List.mem_cons_self s rest)
        have h2 := hs_head x hx
        omega

/-! ## The receive-path invariant (claim C1) -/

theorem RecvInv.init (sent : List Segment) (conv w : Nat) :
    RecvInv sent w (ControlBlock.fresh conv w) :=
  ⟨Nat.zero_le _, rfl, rfl, fun _ h => absurd h (by simp [ControlBlock.fresh]),
    fun _ h => absurd h (by simp [ControlBlock.fresh]), by simp [ControlBlock.fresh]⟩

/-- In a list whose `k`-th element has sequence number `k`, membership
identifies a segment with the element at index `s.sn`. -/
theorem mem_eq_get_of_sn (sent : List Segment)
    (hsn : ∀ (k : Nat) (h : k < sent.length), (sent.get ⟨k, h⟩).sn = k)
    (s : Segment) (h : s ∈ sent) :
    ∃ hlt : s.sn < sent.length, s = sent.get ⟨s.sn, hlt⟩ := by
  obtain ⟨i, hi⟩ := List.mem_iff_get.mp h
  have hs : s.sn = i.1 := by rw [← hi]; exact hsn i.1 i.2
  have hlt : s.sn < sent.length := by rw [hs]; exact i.2
  refine ⟨hlt, ?_⟩
  have hfin : (⟨s.sn, hlt⟩ : Fin sent.length) = i := Fin.ext hs
  rw [hfin]
  exact hi.symm

theorem pushAccept_preserves (sent : List Segment) (w : Nat)
    (hsn : ∀ (k : Nat) (h : k < sent.length), (sent.get ⟨k, h⟩).sn = k)
    (cb : ControlBlock) (a : Segment) (hinv : RecvInv sent w cb) (ha : a ∈ sent) :
    RecvInv sent w (pushAccept cb a) ∧ cb.rcv_nxt ≤ (pushAccept cb a).rcv_nxt := by
  unfold pushAccept
  by_cases hcond : a.sn < cb.rcv_nxt ∨ cb.rcv_nxt + cb.rcv_wnd ≤ a.sn
  · rw [if_pos hcond]
    exact ⟨hinv, Nat.le_refl _⟩
  · rw [if_neg hcond]
    have hge : cb.rcv_nxt ≤ a.sn := by omega
    have hins_sorted := insertBuf_pairwise a cb.rcv_buf hinv.buf_sorted
    have hins_lb : ∀ x ∈ insertBuf a cb.rcv_buf, cb.rcv_nxt ≤ x.sn := by
      intro x hx
      rcases mem_insertBuf a x cb.rcv_buf hx with rfl | hx
      · exact hge
      · exact Nat.le_of_lt (hinv.buf_gt x hx)
    have hins_mem : ∀ x ∈ insertBuf a cb.rcv_buf, x ∈ sent := by
      intro x hx
      rcases mem_insertBuf a x cb.rcv_buf hx with rfl | hx
      · exact ha
      · exact hinv.buf_mem x hx
    rcases hdr : drainBuf cb.rcv_nxt (insertBuf a cb.rcv_buf) with ⟨n2, mv, b2⟩
    obtain ⟨heq, hn2, hget, hb2⟩ :=
      drainBuf_spec (insertBuf a cb.rcv_buf) cb.rcv_nxt hins_sorted hins_lb n2 mv b2 hdr
    simp only [hdr]
    have hmv_mem : ∀ x ∈ mv, x ∈ sent := by
      intro x hx
      exact hins_mem x (heq ▸ List.mem_append_left b2 hx)
    have hb2_mem : ∀ x ∈ b2, x ∈ sent := by
      intro x hx
      exact hins_mem x (heq ▸ List.mem_append_right mv hx)
    have hlen : cb.rcv_nxt + mv.length ≤ sent.length := by
      by_cases hmv : mv = []
      · have := hinv.nxt_le
        simp [hmv]
        omega
      · have hpos : 0 < mv.length := List.length_pos.mpr hmv
        have hi : mv.length - 1 < mv.length := by omega
        have hsni := hget (mv.length - 1) hi
        obtain ⟨hlt, _⟩ := mem_eq_get_of_sn sent hsn _
          (hmv_mem _ (List.get_mem mv (mv.length - 1) hi))
        rw [hsni] at hlt
        omega
    have hmv_eq : mv = (sent.drop cb.rcv_nxt).take mv.length := by
      apply List.ext_get
      · rw [List.length_take, List.length_drop]
        omega
      · intro i h1 h2
        have hsni := hget i h1
        obtain ⟨hlt2, hx⟩ := mem_eq_get_of_sn sent hsn _ (hmv_mem _ (List.get_mem mv i h1))
        have hlt3 : cb.rcv_nxt + i < sent.length := hsni ▸ hlt2
        have hfin : (⟨(mv.get ⟨i, h1⟩).sn, hlt2⟩ : Fin sent.length) =
            ⟨cb.rcv_nxt + i, hlt3⟩ := Fin.ext hsni
        rw [hfin] at hx
        rw [hx]
        simp [List.getElem_take, List.getElem_drop]
    refine ⟨⟨?_, hinv.wnd_eq, ?_, hb2_mem, hb2, ?_⟩, ?_⟩
    · show n2 ≤ sent.length
      omega
    · show cb.rcv_queue ++ mv = sent.take n2
      rw [hinv.queue_eq, hn2, List.take_add, ← hmv_eq]
    · show b2.Pairwise fun x y => x.sn < y.sn
      have hsuffix : List.Sublist b2 (insertBuf a cb.rcv_buf) := by
        rw [← heq]
        exact List.sublist_append_right mv b2
      exact hins_sorted.sublist hsuffix
    · show cb.rcv_nxt ≤ n2
      omega

theorem inputSegment_preserves (sent : List Segment) (w : Nat)
    (hsn : ∀ (k : Nat) (h : k < sent.length), (sent.get ⟨k, h⟩).sn = k)
    (cb : ControlBlock) (a : Segment) (hinv : RecvInv sent w cb) (ha : a ∈ sent) :
    RecvInv sent w (inputSegment cb a) ∧ cb.rcv_nxt ≤ (inputSegment cb a).rcv_nxt := by
  unfold inputSegment
  have hinv1 : RecvInv sent w { cb with snd_una := max cb.snd_una a.una } :=
    ⟨hinv.nxt_le, hinv.wnd_eq, hinv.queue_eq, hinv.buf_mem, hinv.buf_gt, hinv.buf_sorted⟩
  by_cases hc : a.cmd = CMD_PUSH
  · rw [if_pos hc]
    exact pushAccept_preserves sent w hsn _ a hinv1 ha
  · rw [if_neg hc]
    exact ⟨hinv1, Nat.le_refl _⟩

/-- Processing any fair arrival schedule of copies of the sent segments
drives `rcv_nxt` to the end of the sent sequence while maintaining the
invariant (every segment is accepted exactly once, in order). -/
theorem runRecv_complete (sent : List Segment) (w : Nat)
    (hsn : ∀ (k : Nat) (h : k < sent.length), (sent.get ⟨k, h⟩).sn = k) :
    ∀ (arrivals : List Segment) (cb : ControlBlock), RecvInv sent w cb →
      (∀ x ∈ arrivals, x ∈ sent) →
      fairSchedule sent cb arrivals →
      (runRecv cb arrivals).rcv_nxt = sent.length ∧
        RecvInv sent w (runRecv cb arrivals) := by
  intro arrivals
  induction arrivals with
  | nil =>
    intro cb hinv _ hfair
    have hge : ¬cb.rcv_nxt < sent.length := by
      intro hlt
      have := hfair 0 (Nat.le_refl 0) hlt
      simp at this
    exact ⟨Nat.le_antisymm hinv.nxt_le (Nat.le_of_not_lt hge), hinv⟩
  | cons x rest ih =>
    intro cb hinv hmem hfair
    have hx : x ∈ sent := hmem x (List.mem_cons_self x rest)
    obtain ⟨hinv2, _⟩ := inputSegment_preserves sent w hsn cb x hinv hx
    have hrun : runRecv cb (x :: rest) = runRecv (inputSegment cb x) rest := rfl
    rw [hrun]
    refine ih (inputSegment cb x) hinv2
      (fun y hy => hmem y (List.mem_cons_of_mem x hy)) ?_
    intro i hi hguard
    exact hfair (i + 1) (by simpa using Nat.succ_le_succ hi) hguard

/-! ## Reassembly of delivered messages (claim C1) -/

theorem flatten_fragmentMsgFuel (mss : Nat) :
    ∀ (fuel : Nat) (msg : List Nat), (fragmentMsgFuel mss fuel msg).flatten = msg := by
  intro fuel
  induction fuel with
  | zero => intro msg; simp [fragmentMsgFuel]
  | succ fuel ih =>
    intro msg
    simp only [fragmentMsgFuel]
    by_cases h : msg.length ≤ mss ∨ mss = 0
    · rw [if_pos h]
      simp
    · rw [if_neg h]
      simp [ih (msg.drop mss)]

theorem flatten_fragmentMsg (mss : Nat) (msg : List Nat) :
    (fragmentMsg mss msg).flatten = msg :=
  flatten_fragmentMsgFuel mss msg.length msg

theorem fragmentMsg_ne_nil (mss : Nat) (msg : List Nat) : fragmentMsg mss msg ≠ [] := by
  unfold fragmentMsg
  cases h : msg.length with
  | zero => simp [fragmentMsgFuel]
  | succ n =>
    simp only [fragmentMsgFuel]
    by_cases hc : msg.length ≤ mss ∨ mss = 0
    · rw [if_pos hc]; simp
    · rw [if_neg hc]; simp

theorem takeFrags_msgSegments (conv : Nat) :
    ∀ (frags : List (List Nat)) (sn0 : Nat) (tail : List Segment), frags ≠ [] →
      takeFrags (frags.length - 1) (msgSegments conv sn0 frags ++ tail) =
        some (frags, tail) := by
  intro frags
  induction frags with
  | nil => intro _ _ h; exact absurd rfl h
  | cons p rest ih =>
    intro sn0 tail _
    cases rest with
    | nil => simp [msgSegments, takeFrags]
    | cons p2 rest2 =>
      have hih := ih (sn0 + 1) tail (by simp)
      simp only [List.length_cons, Nat.add_sub_cancel, msgSegments, List.cons_append] at hih
      simp only [msgSegments, List.cons_append]
      rw [takeFrags]
      simp only [List.length_cons, Nat.add_sub_cancel, if_true]
      rw [if_neg (Nat.succ_ne_zero rest2.length), hih]

theorem recvOnce_msgSegments (conv mss sn0 : Nat) (m : List Nat)
    (tail : List Segment) (cb : ControlBlock)
    (hq : cb.rcv_queue = msgSegments conv sn0 (fragmentMsg mss m) ++ tail) :
    recvOnce cb = some (m, { cb with rcv_queue := tail }) := by
  obtain ⟨p, frags2, hfs⟩ : ∃ p f, fragmentMsg mss m = p :: f := by
    cases h : fragmentMsg mss m with
    | nil => exact absurd h (fragmentMsg_ne_nil mss m)
    | cons p f => exact ⟨p, f, rfl⟩
  unfold recvOnce
  rw [hq, hfs]
  simp only [msgSegments, List.cons_append]
  have ht := takeFrags_msgSegments conv (p :: frags2) sn0 tail (by simp)
  simp only [msgSegments, List.cons_append, List.length_cons, Nat.add_sub_cancel] at ht
  rw [ht]
  have hm : (p :: frags2).flatten = m := by
    rw [← hfs]
    exact flatten_fragmentMsg mss m
  show some ((p :: frags2).flatten, { cb with rcv_queue := tail }) =
    some (m, { cb with rcv_queue := tail })
  rw [hm]

theorem recvAllFuel_sent (conv mss : Nat) :
    ∀ (msgs : List (List Nat)) (sn0 fuel : Nat) (cb : ControlBlock),
      cb.rcv_queue = sentSegments conv mss sn0 msgs →
      (sentSegments conv mss sn0 msgs).length ≤ fuel →
      recvAllFuel fuel cb = msgs := by
  intro msgs
  induction msgs with
  | nil =>
    intro sn0 fuel cb hq _
    cases fuel with
    | zero => rfl
    | succ f => simp [recvAllFuel, recvOnce, hq, sentSegments]
  | cons m ms ih =>
    intro sn0 fuel cb hq hfuel
    have hflen : 1 ≤ (fragmentMsg mss m).length :=
      List.length_pos.mpr (fragmentMsg_ne_nil mss m)
    have hlen1 : 1 ≤ (sentSegments conv mss sn0 (m :: ms)).length := by
      rw [sentSegments_cons, List.length_append, msgSegments_length]
      omega
    cases fuel with
    | zero => omega
    | succ f =>
      simp only [recvAllFuel]
      rw [sentSegments_cons] at hq
      rw [recvOnce_msgSegments conv mss sn0 m _ cb hq]
      have hrest := ih (sn0 + (fragmentMsg mss m).length) f
        { cb with rcv_queue := sentSegments conv mss (sn0 + (fragmentMsg mss m).length) ms }
        rfl (by
          rw [sentSegments_cons, List.length_append, msgSegments_length] at hfuel
          omega)
      show m :: recvAllFuel f
          { cb with rcv_queue := sentSegments conv mss (sn0 + (fragmentMsg mss m).length) ms } =
        m :: ms
      rw [hrest]

/-! ## Registry lemmas -/

theorem lookupReg_cons (k : SessionKey) (v : Option ControlBlock)
    (rest : Registry) (key : SessionKey) :
    lookupReg ((k, v) :: rest) key = if k = key then some v else lookupReg rest key := rfl

theorem containsKey_eq_false_iff (reg : Registry) (key : SessionKey) :
    containsKey reg key = false ↔ key ∉ reg.map Prod.fst := by
  induction reg with
  | nil => simp [containsKey, lookupReg]
  | cons e rest ih =>
    obtain ⟨k, v⟩ := e
    by_cases hk : k = key
    · subst hk
      simp [containsKey, lookupReg_cons]
    · simp only [containsKey, lookupReg_cons, if_neg hk, List.map_cons, List.mem_cons]
      rw [containsKey] at ih
      simp [ih, Ne.symm hk]

theorem upgradeReg_eq_none_of_not_contains (reg : Registry) (key : SessionKey)
    (h : containsKey reg key = false) : upgradeReg reg key = none := by
  unfold upgradeReg
  unfold containsKey at h
  cases hl : lookupReg reg key with
  | none => rfl
  | some w => rw [hl] at h; simp at h

theorem containsKey_of_upgradeReg_some (reg : Registry) (key : SessionKey)
    (cb : ControlBlock) (h : upgradeReg reg key = some cb) :
    containsKey reg key = true := by
  unfold upgradeReg at h
  unfold containsKey
  cases hl : lookupReg reg key with
  | none => rw [hl] at h; simp at h
  | some w => simp

theorem updateReg_cons (ek : SessionKey) (ev : Option ControlBlock)
    (rest : Registry) (key : SessionKey) (cb : ControlBlock) :
    updateReg ((ek, ev) :: rest) key cb =
      (if ek = key then (key, some cb) else (ek, ev)) :: updateReg rest key cb := rfl

theorem lookupReg_updateReg_ne (reg : Registry) (key k : SessionKey)
    (cb : ControlBlock) (h : k ≠ key) :
    lookupReg (updateReg reg key cb) k = lookupReg reg k := by
  induction reg with
  | nil => rfl
  | cons e rest ih =>
    obtain ⟨ek, ev⟩ := e
    rw [updateReg_cons]
    have hkey : key ≠ k := fun hc => h hc.symm
    by_cases he : ek = key
    · have hek : ek ≠ k := by rw [he]; exact hkey
      rw [if_pos he, lookupReg_cons, lookupReg_cons, if_neg hkey, if_neg hek]
      exact ih
    · rw [if_neg he, lookupReg_cons, lookupReg_cons]
      by_cases hek : ek = k
      · rw [if_pos hek, if_pos hek]
      · rw [if_neg hek, if_neg hek]
        exact ih

theorem lookupReg_updateReg_self (reg : Registry) (key : SessionKey)
    (cb : ControlBlock) (h : containsKey reg key = true) :
    lookupReg (updateReg reg key cb) key = some (some cb) := by
  induction reg with
  | nil => simp [containsKey, lookupReg] at h
  | cons e rest ih =>
    obtain ⟨ek, ev⟩ := e
    rw [updateReg_cons]
    by_cases he : ek = key
    · rw [if_pos he, lookupReg_cons, if_pos rfl]
    · rw [if_neg he, lookupReg_cons, if_neg he]
      simp only [containsKey, lookupReg_cons, if_neg he] at h
      exact ih h

theorem lookupReg_removeReg_self (reg : Registry) (key : SessionKey) :
    lookupReg (removeReg reg key) key = none := by
  induction reg with
  | nil => rfl
  | cons e rest ih =>
    obtain ⟨ek, ev⟩ := e
    by_cases he : ek = key
    · subst he
      simpa [removeReg] using ih
    · simpa [removeReg, List.filter_cons, he, lookupReg_cons] using ih

/-! ## Claims C2–C10 -/

/-- C2: an inbound packet whose AEAD authentication fails is bounced back
to its sender with the identical bytes; no session is created and neither
the registry nor any control block changes (`dispatch_loop`,
`src/session.rs`; spec §4.B, §8 property 7). -/
theorem c2_bounce_undecryptable (dec : List Nat → Option (List Nat))
    (cfg : KcpConfig) (reg : Registry) (src : Endpoint) (raw : List Nat)
    (h : dec raw = none) :
    dispatchStep dec cfg reg src raw = ⟨reg, [(src, raw)], none, false⟩ := by
  unfold dispatchStep
  rw [h]

theorem c2_bounce_undecryptable_witness :
    (fun _ => none : List Nat → Option (List Nat)) [9, 9, 9] = none ∧
      dispatchStep (fun _ => none) defaultKcpConfig regLive75 3 [9, 9, 9] =
        ⟨regLive75, [(3, [9, 9, 9])], none, false⟩ :=
  ⟨rfl, c2_bounce_undecryptable (fun _ => none) defaultKcpConfig regLive75 3 [9, 9, 9] rfl⟩

/-- C10: a packet that decrypts but finds no live registry entry and is not
a first push is silently discarded: nothing is sent on the carrier, no
session is created and the state is unchanged (`dispatch_loop`,
`src/session.rs`). -/
theorem c10_silent_discard_unknown_key (dec : List Nat → Option (List Nat))
    (cfg : KcpConfig) (reg : Registry) (src : Endpoint) (raw plain : List Nat)
    (hdec : dec raw = some plain)
    (hup : upgradeReg reg (src, conv_from_raw plain) = none)
    (hfp : first_push_packet plain = false) :
    dispatchStep dec cfg reg src raw = ⟨reg, [], none, false⟩ := by
  unfold dispatchStep
  rw [hdec]
  simp only [hup, hfp]
  rfl

theorem c10_silent_discard_unknown_key_witness :
    decId [0, 0, 0, 0, 82, 0, 0, 0, 0, 0, 0, 0, 0, 0, 0, 0, 0, 0, 0, 0, 0, 0, 0, 0] =
        some [0, 0, 0, 0, 82, 0, 0, 0, 0, 0, 0, 0, 0, 0, 0, 0, 0, 0, 0, 0, 0, 0, 0, 0] ∧
      dispatchStep decId defaultKcpConfig regStale75 7
          [0, 0, 0, 0, 82, 0, 0, 0, 0, 0, 0, 0, 0, 0, 0, 0, 0, 0, 0, 0, 0, 0, 0, 0] =
        ⟨regStale75, [], none, false⟩ :=
  ⟨rfl, c10_silent_discard_unknown_key decId defaultKcpConfig regStale75 7 _ _ rfl
    (by decide) (by decide)⟩

/-- C3 counterexample: a live session for `(7, 5)` receives a frame that
decrypts fine but declares an impossible payload length; the claim says the
dispatcher drops the frame and keeps running with state unchanged, but
`kcp.input(&raw).unwrap()` panics, killing the dispatch task. -/
theorem c3_malformed_frame_counterexample :
    dispatchStep decId defaultKcpConfig regLive75 7 rawBadLen5 =
      ⟨regLive75, [], none, true⟩ := by decide

/-- C3 amended: on a successfully decrypted but malformed ARQ frame routed
to a live control block, the dispatcher does not drop the frame and
continue — the `unwrap` on `input`'s error panics and terminates the
dispatch loop (no carrier output, no session created; the registry itself
is not modified). -/
theorem c3_malformed_frame_panics (dec : List Nat → Option (List Nat))
    (cfg : KcpConfig) (reg : Registry) (src : Endpoint) (raw plain : List Nat)
    (cb : ControlBlock) (hdec : dec raw = some plain)
    (hup : upgradeReg reg (src, conv_from_raw plain) = some cb)
    (hbad : kcpInput cb plain = none) :
    dispatchStep dec cfg reg src raw = ⟨reg, [], none, true⟩ := by
  unfold dispatchStep
  rw [hdec]
  simp only [hup, hbad]

theorem c3_malformed_frame_panics_witness :
    decId rawBadLen5 = some rawBadLen5 ∧
      dispatchStep decId defaultKcpConfig regLive75 7 rawBadLen5 =
        ⟨regLive75, [], none, true⟩ :=
  ⟨rfl, c3_malformed_frame_panics decId defaultKcpConfig regLive75 7 rawBadLen5
    rawBadLen5 (ControlBlock.fresh 5 2048) rfl (by decide) (by decide)⟩

/-- C4 counterexample: a session for `(7, 5)` is dropped without `close`
(its updater has exited, so the weak is dead); the claim says the drop
removes the key from the registry, but the key is still present. -/
theorem c4_drop_counterexample :
    containsKey (dropSessionWithoutClose regStale75 (7, 5)) (7, 5) = true := by decide

/-- C4 amended: `Session` has no destructor (`src/session.rs` contains no
`impl Drop for Session`), so dropping a session without calling `close`
leaves the registry completely unchanged — in particular its `(peer, conv)`
key is retained (only `close`'s graceful branch removes it); the entry's
weak reference merely becomes dead once the updater exits. -/
theorem c4_drop_keeps_registry_entry (reg : Registry) (key : SessionKey)
    (h : containsKey reg key = true) :
    dropSessionWithoutClose reg key = reg ∧
      containsKey (dropSessionWithoutClose reg key) key = true :=
  ⟨rfl, h⟩

theorem c4_drop_keeps_registry_entry_witness :
    containsKey regStale75 (7, 5) = true ∧
      dropSessionWithoutClose regStale75 (7, 5) = regStale75 ∧
        containsKey (dropSessionWithoutClose regStale75 (7, 5)) (7, 5) = true :=
  ⟨by decide, c4_drop_keeps_registry_entry regStale75 (7, 5) (by decide)⟩

/-- C5 counterexample: `close` on the live session `(3, 9)` loses the race
to the 60-second timeout; the claim says the registry entry is nevertheless
removed, but the timeout arm of the `select!` does nothing, so the key is
still present. -/
theorem c5_close_timeout_counterexample :
    containsKey
      (closeSession true [((3, 9), some (ControlBlock.fresh 9 2048))] (3, 9)) (3, 9) =
      true := by decide

/-- C5 amended: when the 60-second timeout elapses before graceful teardown
completes, `close` returns with the registry unchanged — the `(peer, conv)`
entry is **not** removed (the timeout arm of the `select!` is empty); the
entry is removed exactly when the graceful branch completes in time. -/
theorem c5_close_timeout_leaves_entry (reg : Registry) (key : SessionKey) :
    closeSession true reg key = reg ∧
      lookupReg (closeSession false reg key) key = none := by
  refine ⟨rfl, ?_⟩
  unfold closeSession
  simpa using lookupReg_removeReg_self reg key

/-- C6 counterexample: the registry holds a stale entry for `(7, 5)` (the
key is present, its weak is dead, so there is no *live* registry entry) and
a first-push packet for conversation 5 arrives from peer 7; the claim says
a new session is constructed and published, but `Session::new`'s
`assert!(!CONTROLS.contains_key(..))` fails — the dispatcher panics and no
session is created. -/
theorem c6_first_push_gate_counterexample :
    dispatchStep decId defaultKcpConfig regStale75 7 rawFirstPush5 =
      ⟨regStale75, [], none, true⟩ := by decide

/-- C6 amended: for a successfully decrypted packet, a new session is
constructed and published iff the packet's first segment is a PUSH with
`sn == 0` **and** the `(peer, conv)` key is entirely absent from the
registry.  In full: (i) when the key is absent, creation happens iff the
packet is a first push; (ii) a packet that is not a first push never
creates a session, whatever the registry holds; (iii) a packet routed to a
live registry entry never creates a session, first push or not; (iv) a
first push whose key is present but whose weak reference is dead makes
`Session::new`'s `assert!(!CONTROLS.contains_key(..))` panic — nothing is
sent, created or changed, and the dispatch loop dies. -/
theorem c6_first_push_gate (dec : List Nat → Option (List Nat))
    (cfg : KcpConfig) (reg : Registry) (src : Endpoint) (raw plain : List Nat)
    (hdec : dec raw = some plain) :
    (containsKey reg (src, conv_from_raw plain) = false →
      ((dispatchStep dec cfg reg src raw).created = some (src, conv_from_raw plain) ↔
        first_push_packet plain = true)) ∧
      (first_push_packet plain = false →
        (dispatchStep dec cfg reg src raw).created = none) ∧
      (∀ cb, upgradeReg reg (src, conv_from_raw plain) = some cb →
        (dispatchStep dec cfg reg src raw).created = none) ∧
      (upgradeReg reg (src, conv_from_raw plain) = none →
        containsKey reg (src, conv_from_raw plain) = true →
        first_push_packet plain = true →
        dispatchStep dec cfg reg src raw = ⟨reg, [], none, true⟩) := by
  refine ⟨?_, ?_, ?_, ?_⟩
  · intro habs
    have hup := upgradeReg_eq_none_of_not_contains reg (src, conv_from_raw plain) habs
    unfold dispatchStep
    rw [hdec]
    simp only [hup]
    cases hfp : first_push_packet plain with
    | false => simp
    | true =>
      simp only [if_true, habs, Bool.false_eq_true, if_false]
      cases hin : kcpInput (ControlBlock.fresh (conv_from_raw plain) cfg.recv_window_size)
          plain with
      | none => simp
      | some cb2 => simp
  · intro hfp
    unfold dispatchStep
    rw [hdec]
    cases hup : upgradeReg reg (src, conv_from_raw plain) with
    | some cb =>
      simp only [hup]
      cases hin : kcpInput cb plain with
      | none => simp [hin]
      | some cb2 => simp [hin]
    | none => simp [hup, hfp]
  · intro cb hup
    unfold dispatchStep
    rw [hdec]
    simp only [hup]
    cases hin : kcpInput cb plain with
    | none => simp [hin]
    | some cb2 => simp [hin]
  · intro hup hck hfp
    unfold dispatchStep
    rw [hdec]
    simp only [hup, hfp, hck]
    rfl

theorem c6_first_push_gate_witness :
    decId rawFirstPush5 = some rawFirstPush5 ∧
      ((containsKey ([] : Registry) (7, conv_from_raw rawFirstPush5) = false →
        ((dispatchStep decId defaultKcpConfig [] 7 rawFirstPush5).created =
            some (7, conv_from_raw rawFirstPush5) ↔
          first_push_packet rawFirstPush5 = true)) ∧
        (first_push_packet rawFirstPush5 = false →
          (dispatchStep decId defaultKcpConfig [] 7 rawFirstPush5).created = none) ∧
        (∀ cb, upgradeReg [] (7, conv_from_raw rawFirstPush5) = some cb →
          (dispatchStep decId defaultKcpConfig [] 7 rawFirstPush5).created = none) ∧
        (upgradeReg [] (7, conv_from_raw rawFirstPush5) = none →
          containsKey ([] : Registry) (7, conv_from_raw rawFirstPush5) = true →
          first_push_packet rawFirstPush5 = true →
          dispatchStep decId defaultKcpConfig [] 7 rawFirstPush5 = ⟨[], [], none, true⟩)) :=
  ⟨rfl, c6_first_push_gate decId defaultKcpConfig [] 7 rawFirstPush5 rawFirstPush5 rfl⟩

/-- C7: `Session::connect` returns only a conversation id that was not
present in the registry for that peer when the session was created (the
loop retries random values on collision), the new session is registered
under `(peer, conv)`, and key uniqueness of the registry is preserved, so
no two live sessions ever share `(peer, conv)` (`src/session.rs`,
`connect` and `new`; spec §4.E, invariant 5). -/
theorem c7_connect_fresh_conv (cfg : KcpConfig) (reg : Registry)
    (peer : Endpoint) (cands : List Nat) (conv : Nat) (reg2 : Registry)
    (h : sessionConnect cfg reg peer cands = some (conv, reg2)) :
    containsKey reg (peer, conv) = false ∧
      reg2 = ((peer, conv), some (ControlBlock.fresh conv cfg.recv_window_size)) :: reg ∧
      ((reg.map Prod.fst).Nodup → (reg2.map Prod.fst).Nodup) := by
  induction cands with
  | nil => simp [sessionConnect] at h
  | cons c rest ih =>
    unfold sessionConnect at h
    by_cases hc : containsKey reg (peer, c) = true
    · rw [if_pos hc] at h
      exact ih h
    · replace hc : containsKey reg (peer, c) = false := by
        cases hcc : containsKey reg (peer, c) with
        | false => rfl
        | true => exact absurd hcc hc
      rw [if_neg (by simp [hc])] at h
      obtain ⟨rfl, rfl⟩ : c = conv ∧
          ((peer, c), some (ControlBlock.fresh c cfg.recv_window_size)) :: reg = reg2 := by
        constructor
        · exact congrArg Prod.fst (Option.some.inj h)
        · have := congrArg Prod.snd (Option.some.inj h)
          simpa [congrArg Prod.fst (Option.some.inj h)] using this
      refine ⟨hc, rfl, fun hnd => ?_⟩
      simp only [List.map_cons, List.nodup_cons]
      exact ⟨(containsKey_eq_false_iff reg (peer, c)).mp hc, hnd⟩

theorem c7_connect_fresh_conv_witness :
    containsKey regStale75 (7, 3) = false ∧
      (((7, 3), some (ControlBlock.fresh 3 defaultKcpConfig.recv_window_size)) ::
            regStale75 =
          ((7, 3), some (ControlBlock.fresh 3 defaultKcpConfig.recv_window_size)) ::
            regStale75) ∧
      ((regStale75.map Prod.fst).Nodup →
        (((((7, 3), some (ControlBlock.fresh 3 defaultKcpConfig.recv_window_size)) ::
          regStale75)).map Prod.fst).Nodup) :=
  c7_connect_fresh_conv defaultKcpConfig regStale75 7 [5, 3] 3
    (((7, 3), some (ControlBlock.fresh 3 defaultKcpConfig.recv_window_size)) :: regStale75)
    (by decide)

/-- C8: demux isolation — one dispatch iteration on a packet from peer
`src` carrying conversation id `conv` never touches the registry entry of
any other `(peer, conv)` key, and when the packet is accepted it is fed via
`input` exactly to the control block registered under `(src, conv)`
(`dispatch_loop`, `src/session.rs`; spec §4.F steps 4–7, §8 property 6). -/
theorem c8_demux_isolation (dec : List Nat → Option (List Nat))
    (cfg : KcpConfig) (reg : Registry) (src : Endpoint) (raw plain : List Nat)
    (k : SessionKey) (hdec : dec raw = some plain)
    (hk : k ≠ (src, conv_from_raw plain)) :
    lookupReg (dispatchStep dec cfg reg src raw).registry k = lookupReg reg k ∧
      (∀ cb cb2, upgradeReg reg (src, conv_from_raw plain) = some cb →
        kcpInput cb plain = some cb2 →
        lookupReg (dispatchStep dec cfg reg src raw).registry
            (src, conv_from_raw plain) = some (some cb2)) := by
  have hk2 : (src, conv_from_raw plain) ≠ k := fun hc => hk hc.symm
  constructor
  · unfold dispatchStep
    rw [hdec]
    cases hup : upgradeReg reg (src, conv_from_raw plain) with
    | some cb =>
      simp only [hup]
      cases hin : kcpInput cb plain with
      | none => simp [hin]
      | some cb2 =>
        simp only [hin]
        exact lookupReg_updateReg_ne reg (src, conv_from_raw plain) k cb2 hk
    | none =>
      simp only [hup]
      cases hfp : first_push_packet plain with
      | false => simp [hfp]
      | true =>
        simp only [hfp, if_true]
        cases hck : containsKey reg (src, conv_from_raw plain) with
        | true => simp [hck]
        | false =>
          simp only [hck, Bool.false_eq_true, if_false]
          cases hin : kcpInput
              (ControlBlock.fresh (conv_from_raw plain) cfg.recv_window_size) plain with
          | none =>
            simp only [hin]
            rw [lookupReg_cons, if_neg hk2]
          | some cb2 =>
            simp only [hin]
            rw [lookupReg_updateReg_ne _ _ _ _ hk, lookupReg_cons, if_neg hk2]
  · intro cb cb2 hup hin
    unfold dispatchStep
    rw [hdec]
    simp only [hup, hin]
    exact lookupReg_updateReg_self reg (src, conv_from_raw plain) cb2
      (containsKey_of_upgradeReg_some reg _ cb hup)

theorem c8_demux_isolation_witness :
    decId rawFirstPush5 = some rawFirstPush5 ∧
      ((3, 3) : SessionKey) ≠ (7, conv_from_raw rawFirstPush5) ∧
      (lookupReg (dispatchStep decId defaultKcpConfig regLive75 7 rawFirstPush5).registry
            (3, 3) = lookupReg regLive75 (3, 3) ∧
        (∀ cb cb2, upgradeReg regLive75 (7, conv_from_raw rawFirstPush5) = some cb →
          kcpInput cb rawFirstPush5 = some cb2 →
          lookupReg (dispatchStep decId defaultKcpConfig regLive75 7 rawFirstPush5).registry
              (7, conv_from_raw rawFirstPush5) = some (some cb2))) :=
  ⟨rfl, by decide,
    c8_demux_isolation decId defaultKcpConfig regLive75 7 rawFirstPush5 rawFirstPush5
      (3, 3) rfl (by decide)⟩

/-- C1: in-order, exactly-once delivery.  For a single session and
direction, submit the messages `msgs` (via `Session::send`, which
fragments them into the PUSH segments `sentSegments conv mss 0 msgs` with
consecutive sequence numbers) and let the channel deliver any schedule
`arrivals` of copies of those segments in which each packet is eventually
delivered (loss rate below 100%): copies may be duplicated, reordered and
individually lost arbitrarily, as long as, while some sent segment is
still undelivered, a copy of the next expected one arrives later
(`fairSchedule` — the finite form of "the sender retransmits every
unacknowledged segment until it is acknowledged, and a segment is only
acknowledged once the receiver accepts it", so loss below 100% always
yields such a schedule; loss-only schedules delivering each segment
exactly once in any order satisfy it).  Then the sequence of payloads
returned by `Session::recv` equals `msgs`, and in particular the sequence
of non-empty payloads returned by `recv` equals the sequence of non-empty
payloads submitted to `send`: in-order, exactly-once delivery (spec §8
properties 1–3, invariant 3). -/
theorem c1_in_order_exactly_once_delivery (conv mss w : Nat)
    (msgs : List (List Nat)) (arrivals : List Segment)
    (hmem : ∀ x ∈ arrivals, x ∈ sentSegments conv mss 0 msgs)
    (hfair : fairSchedule (sentSegments conv mss 0 msgs)
      (ControlBlock.fresh conv w) arrivals) :
    recvAll (runRecv (ControlBlock.fresh conv w) arrivals) = msgs ∧
      (recvAll (runRecv (ControlBlock.fresh conv w) arrivals)).filter
          (fun m => decide (m ≠ [])) =
        msgs.filter fun m => decide (m ≠ []) := by
  have hsn := sn_get_sentSegments conv mss msgs
  obtain ⟨hnxt, hinv⟩ := runRecv_complete (sentSegments conv mss 0 msgs) w hsn
    arrivals (ControlBlock.fresh conv w) (RecvInv.init _ conv w) hmem hfair
  have hqueue : (runRecv (ControlBlock.fresh conv w) arrivals).rcv_queue =
      sentSegments conv mss 0 msgs := by
    rw [hinv.queue_eq, hnxt, List.take_length]
  have hall : recvAll (runRecv (ControlBlock.fresh conv w) arrivals) = msgs := by
    unfold recvAll
    exact recvAllFuel_sent conv mss msgs 0 _ _ hqueue (by
      rw [hqueue])
  exact ⟨hall, by rw [hall]⟩

theorem c1_in_order_exactly_once_delivery_witness :
    (∀ x ∈ ([⟨9, 81, 0, 0, 0, 1, 0, [3]⟩, ⟨9, 81, 1, 0, 0, 0, 0, [1, 2]⟩,
        ⟨9, 81, 0, 0, 0, 1, 0, [3]⟩, ⟨9, 81, 0, 0, 0, 2, 0, [4, 5]⟩] : List Segment),
      x ∈ sentSegments 9 2 0 [[1, 2, 3], [4, 5]]) ∧
    fairSchedule (sentSegments 9 2 0 [[1, 2, 3], [4, 5]]) (ControlBlock.fresh 9 4)
      [⟨9, 81, 0, 0, 0, 1, 0, [3]⟩, ⟨9, 81, 1, 0, 0, 0, 0, [1, 2]⟩,
        ⟨9, 81, 0, 0, 0, 1, 0, [3]⟩, ⟨9, 81, 0, 0, 0, 2, 0, [4, 5]⟩] ∧
    (recvAll (runRecv (ControlBlock.fresh 9 4)
          [⟨9, 81, 0, 0, 0, 1, 0, [3]⟩, ⟨9, 81, 1, 0, 0, 0, 0, [1, 2]⟩,
            ⟨9, 81, 0, 0, 0, 1, 0, [3]⟩, ⟨9, 81, 0, 0, 0, 2, 0, [4, 5]⟩]) =
        [[1, 2, 3], [4, 5]] ∧
      (recvAll (runRecv (ControlBlock.fresh 9 4)
            [⟨9, 81, 0, 0, 0, 1, 0, [3]⟩, ⟨9, 81, 1, 0, 0, 0, 0, [1, 2]⟩,
              ⟨9, 81, 0, 0, 0, 1, 0, [3]⟩,
              ⟨9, 81, 0, 0, 0, 2, 0, [4, 5]⟩])).filter (fun m => decide (m ≠ [])) =
        ([[1, 2, 3], [4, 5]] : List (List Nat)).filter fun m => decide (m ≠ [])) :=
  ⟨by decide, by decide,
    c1_in_order_exactly_once_delivery 9 2 4 [[1, 2, 3], [4, 5]]
      [⟨9, 81, 0, 0, 0, 1, 0, [3]⟩, ⟨9, 81, 1, 0, 0, 0, 0, [1, 2]⟩,
        ⟨9, 81, 0, 0, 0, 1, 0, [3]⟩, ⟨9, 81, 0, 0, 0, 2, 0, [4, 5]⟩]
      (by decide) (by decide)⟩

/-- C9 code bug, evaluated at the failing input: the control block holds a
complete five-byte message (`peek_size = 5`), yet `try_recv` returns
`Some` of an **empty** payload and leaves the control block (and hence the
queued message) untouched, because `BytesMut::with_capacity(5).as_mut()`
is a zero-length slice, so `recv` is called with a buffer that cannot hold
the message. -/
theorem c9_try_recv_returns_empty_payload :
    peekSize cbReadyMsg = 5 ∧ try_recv cbReadyMsg = (some [], cbReadyMsg) := by decide
